import Mathlib

/-!
Verification of the CTU static-analysis driver (`src/clang-analyzer.py`).

Strings are modelled as `List Char` (`Str`).  Each definition below is a
shallow embedding of a specific piece of the Python source; the doc comment
of every definition names the source lines it embeds.
-/

/-- Strings of the Python program, modelled as lists of characters. -/
abbrev Str := List Char

/-- Shorthand turning a Lean string literal into the `List Char` model. -/
def cs (s : String) : Str := s.data

/-- Substring test: `needle.find(...) >= 0` / `needle in hay` in Python.
Scans every position of `hay` for `p` as a prefix. -/
def containsSub (p : Str) : Str → Bool
  | [] => p.isEmpty
  | c :: s => p.isPrefixOf (c :: s) || containsSub p s

/-- `containsSub` decides the `List.IsInfix` relation. -/
theorem containsSub_iff (p : Str) : ∀ s : Str, containsSub p s = true ↔ p <:+: s
  | [] => by
    simp only [containsSub, List.isEmpty_iff]
    constructor
    · rintro rfl; exact List.nil_infix
    · intro h; exact List.eq_nil_of_infix_nil h
  | c :: s => by
    simp only [containsSub, Bool.or_eq_true, List.isPrefixOf_iff_prefix,
      containsSub_iff p s]
    exact List.infix_cons_iff.symm

/-- Python `str.replace(p, "")` with fuel: removes the leftmost occurrence of
`p`, then continues scanning after it (non-overlapping, left to right).
The fuel is consumed one unit per examined position; `pyReplace` supplies
enough fuel for the scan to finish. -/
def pyReplaceAux (p : Str) : Nat → Str → Str
  | _, [] => []
  | 0, s => s
  | n + 1, c :: s =>
    if p.isPrefixOf (c :: s) && !p.isEmpty then
      pyReplaceAux p n (s.drop (p.length - 1))
    else
      c :: pyReplaceAux p n s

/-- Python `str.replace(p, "")`: delete all (leftmost, non-overlapping)
occurrences of `p`. -/
def pyReplace (p s : Str) : Str := pyReplaceAux p s.length s

/-- Line 78: `line = line.replace(f"{os.getcwd()}/", "")` — the
working-directory rewriting step of `generate_external_def_map`. -/
def stripLine (cwd line : Str) : Str := pyReplace (cwd ++ ['/']) line

example : stripLine (cs "/c") (cs "x//c/c/y") = cs "x/c/y" := by rfl
example : stripLine (cs "/c") (cs "x/c/y") = cs "xy" := by rfl
example : stripLine (cs "/root") (cs "sym /root/a.cpp") = cs "sym a.cpp" := by rfl

/-- The fuel argument of `pyReplaceAux` is irrelevant once it is at least the
length of the scanned list. -/
theorem pyReplaceAux_stable (p : Str) :
    ∀ n m : Nat, ∀ s : Str, s.length ≤ n → s.length ≤ m →
      pyReplaceAux p n s = pyReplaceAux p m s := by
  intro n
  induction n with
  | zero =>
    intro m s hn _
    have : s = [] := List.eq_nil_of_length_eq_zero (Nat.le_zero.mp hn)
    subst this
    cases m <;> rfl
  | succ k ih =>
    intro m s hn hm
    cases s with
    | nil => cases m <;> rfl
    | cons c s' =>
      cases m with
      | zero => exact absurd hm (by simp)
      | succ j =>
        simp only [pyReplaceAux]
        by_cases hg : (p.isPrefixOf (c :: s') && !p.isEmpty) = true
        · rw [if_pos hg, if_pos hg]
          apply ih
          · calc (s'.drop (p.length - 1)).length ≤ s'.length := by
                  simp [List.length_drop]
              _ ≤ k := by simpa using hn
          · calc (s'.drop (p.length - 1)).length ≤ s'.length := by
                  simp [List.length_drop]
              _ ≤ j := by simpa using hm
        · rw [if_neg hg, if_neg hg]
          congr 1
          exact ih j s' (by simpa using hn) (by simpa using hm)

/-- Unfolding rule for `pyReplace` on a cons cell. -/
theorem pyReplace_cons (p : Str) (c : Char) (s : Str) :
    pyReplace p (c :: s) =
      if p.isPrefixOf (c :: s) && !p.isEmpty then
        pyReplace p (s.drop (p.length - 1))
      else
        c :: pyReplace p s := by
  show pyReplaceAux p (s.length + 1) (c :: s) = _
  simp only [pyReplaceAux]
  by_cases hg : (p.isPrefixOf (c :: s) && !p.isEmpty) = true
  · rw [if_pos hg, if_pos hg]
    exact pyReplaceAux_stable p s.length (s.drop (p.length - 1)).length _
      (by simp [List.length_drop]) (Nat.le_refl _)
  · rw [if_neg hg, if_neg hg]
    rfl

/-- A list with no occurrence of `p` is left unchanged by `pyReplace`. -/
theorem pyReplace_of_not_infix (p : Str) :
    ∀ s : Str, ¬ p <:+: s → pyReplace p s = s := by
  intro s
  induction s with
  | nil => intro _; rfl
  | cons c s' ih =>
    intro h
    rw [pyReplace_cons]
    have hp : p ≠ [] := by
      rintro rfl
      exact h List.nil_infix
    have hpre : p.isPrefixOf (c :: s') = false := by
      rw [Bool.eq_false_iff]
      intro hab
      exact h (List.isPrefixOf_iff_prefix.mp hab).isInfix
    rw [hpre]
    simp only [Bool.false_and, if_neg Bool.false_ne_true]
    congr 1
    exact ih (fun hi => h (List.infix_cons hi))

/-- Removing an occurrence of `p` sitting at an arbitrary position: provided
no occurrence of `p` starts strictly before position `a.length` inside
`a ++ p` (expressed via `(a ++ p).dropLast`), the scan keeps `a`, deletes
that occurrence of `p`, and continues on `b`. -/
theorem pyReplace_append (p : Str) (hp : p ≠ []) :
    ∀ a b : Str, ¬ p <:+: (a ++ p).dropLast →
      pyReplace p (a ++ p ++ b) = a ++ pyReplace p b := by
  intro a
  induction a with
  | nil =>
    intro b _
    obtain ⟨q, p', rfl⟩ : ∃ q p', p = q :: p' := by
      cases p with
      | nil => exact absurd rfl hp
      | cons q p' => exact ⟨q, p', rfl⟩
    show pyReplace (q :: p') (q :: (p' ++ b)) = pyReplace (q :: p') b
    rw [pyReplace_cons]
    have hpre : (q :: p').isPrefixOf (q :: (p' ++ b)) = true := by
      rw [ List.isPrefixOf_iff_prefix]
      exact List.prefix_append (q :: p') b
    rw [hpre]
    simp only [List.isEmpty_cons, Bool.not_false, Bool.and_true, if_true]
    congr 1
    simp [List.drop_left']
  | cons c a' ih =>
    intro b h
    show pyReplace p (c :: (a' ++ p ++ b)) = c :: (a' ++ pyReplace p b)
    rw [pyReplace_cons]
    have hlen : p.length ≤ (a' ++ p).length := by
      simp [List.length_append]
    have hpre : p.isPrefixOf (c :: (a' ++ p ++ b)) = false := by
      rw [Bool.eq_false_iff]
      intro hab
      have hpfx : p <+: (c :: a') ++ p ++ b := List.isPrefixOf_iff_prefix.mp hab
      have h1 : p = ((c :: a') ++ p).take p.length := by
        have := List.prefix_iff_eq_take.mp hpfx
        rwa [List.take_append_of_le_length
          (by simp [List.length_append]; omega)] at this
      have h2 : p = (((c :: a') ++ p).dropLast).take p.length := by
        rw [List.dropLast_eq_take, List.take_take]
        rw [Nat.min_eq_left (by simp [List.length_append])]
        exact h1
      have : p <+: ((c :: a') ++ p).dropLast := List.prefix_iff_eq_take.mpr h2
      exact h this.isInfix
    rw [hpre]
    simp only [Bool.false_and, if_neg Bool.false_ne_true]
    congr 1
    apply ih
    intro hi
    apply h
    have hne : a' ++ p ≠ [] := by
      intro hnil
      exact hp (List.append_eq_nil.mp hnil).2
    have : ((c :: a') ++ p).dropLast = c :: (a' ++ p).dropLast := by
      show (c :: (a' ++ p)).dropLast = _
      rw [List.dropLast_cons_of_ne_nil hne]
    rw [this]
    exact List.infix_cons hi

/-- C7 counterexample input: with working directory `/c`, deleting the two
(overlapping) occurrences of `/c/` in `x//c/c/y` splices a fresh occurrence
together, so a second pass removes more. -/
theorem c7_strip_idempotent_counterexample :
    stripLine (cs "/c") (cs "x//c/c/y") = cs "x/c/y"
    ∧ stripLine (cs "/c") (stripLine (cs "/c") (cs "x//c/c/y")) = cs "xy"
    ∧ stripLine (cs "/c") (stripLine (cs "/c") (cs "x//c/c/y"))
        ≠ stripLine (cs "/c") (cs "x//c/c/y") := by
  refine ⟨rfl, rfl, ?_⟩
  decide

/-- C7 (amended): the working-directory stripping step is idempotent on every
line whose once-stripped form contains no further occurrence of the pattern
`cwd ++ "/"`; deleting occurrences can splice together a new occurrence, in
which case a second pass differs. -/
theorem c7_strip_idempotent_amended (cwd line : Str)
    (h : containsSub (cwd ++ ['/']) (stripLine cwd line) = false) :
    stripLine cwd (stripLine cwd line) = stripLine cwd line := by
  apply pyReplace_of_not_infix
  intro hi
  rw [← containsSub_iff] at hi
  rw [h] at hi
  exact Bool.false_ne_true hi

/-- Witness for the amended C7 theorem at a concrete input. -/
theorem c7_strip_idempotent_amended_witness :
    stripLine (cs "/c") (stripLine (cs "/c") (cs "/c/a.cpp"))
      = stripLine (cs "/c") (cs "/c/a.cpp") :=
  c7_strip_idempotent_amended (cs "/c") (cs "/c/a.cpp") (by decide)

/-- C10: the rewriting step `line.replace(cwd + "/", "")` removes occurrences
of `cwd ++ "/"` anywhere in the line — at an arbitrary position `a`, hence
also inside the symbol-id field and at non-leading positions of the filename
— and a line containing no occurrence passes through unchanged.  The
hypothesis `h2` rules out an occurrence overlapping into the displayed one
from the left. -/
theorem c10_strip_removes_everywhere (cwd line a b : Str)
    (h1 : containsSub (cwd ++ ['/']) line = false)
    (h2 : containsSub (cwd ++ ['/']) ((a ++ (cwd ++ ['/'])).dropLast) = false) :
    stripLine cwd line = line
    ∧ stripLine cwd (a ++ (cwd ++ ['/']) ++ b) = a ++ stripLine cwd b := by
  constructor
  · apply pyReplace_of_not_infix
    intro hi
    rw [← containsSub_iff] at hi
    rw [h1] at hi
    exact Bool.false_ne_true hi
  · apply pyReplace_append (cwd ++ ['/']) (by simp)
    intro hi
    rw [← containsSub_iff] at hi
    rw [h2] at hi
    exact Bool.false_ne_true hi

/-- Witness for C10: the pattern `/c/` is removed from the middle of a line
(a non-leading occurrence following the symbol-id text `sym-x`). -/
theorem c10_strip_removes_everywhere_witness :
    stripLine (cs "/c") (cs "sym a.cpp") = cs "sym a.cpp"
    ∧ stripLine (cs "/c") (cs "sym-x" ++ (cs "/c" ++ ['/']) ++ cs "a.cpp")
        = cs "sym-x" ++ stripLine (cs "/c") (cs "a.cpp") :=
  c10_strip_removes_everywhere (cs "/c") (cs "sym a.cpp") (cs "sym-x")
    (cs "a.cpp") (by decide) (by decide)

/-- Python regex whitespace class `\s` (ASCII part); `\S` is its negation. -/
def isPyWS (c : Char) : Bool :=
  c = ' ' || c = '\t' || c = '\n' || c = '\r' || c = '\x0b' || c = '\x0c'

/-- Whether the suffix `B` of a candidate line matches the tail `(\S+.cpp)` of
the pattern `(.*) (\S+.cpp)$` of line 79 in its entirety: since `\S+`, `.`
and the literal `cpp` together must cover all of `B`, this forces `B` to be
at least five characters, end in the literal `cpp`, and have only
non-whitespace characters before its last four (the `.` position just before
`cpp` is unconstrained — the dot is not escaped in the source pattern). -/
def checkTail (B : Str) : Bool :=
  decide (5 ≤ B.length) && decide (B.drop (B.length - 3) = cs "cpp")
    && (B.take (B.length - 4)).all (fun c => !isPyWS c)

/-- Matching of `(.*) (\S+.cpp)` against the whole (newline-free) core of a
line, with the greedy backtracking order of Python's `re`: the split space is
the **last** position whose suffix matches the pattern tail.  Returns the two
capture groups. -/
def innerMatch : Str → Option (Str × Str)
  | [] => none
  | c :: rest =>
    match innerMatch rest with
    | some (g1, g2) => some (c :: g1, g2)
    | none => if c = ' ' && checkTail rest then some ([], rest) else none

/-- The part of the line that `$` allows the match to cover: everything
except one trailing newline, if present (Python `$` without `re.MULTILINE`
also matches just before a newline that ends the string). -/
def coreOf (line : Str) : Str :=
  if line.getLast? = some '\n' then line.dropLast else line

/-- Line 79: `re.match(r"(.*) (\S+.cpp)$", line)`.  The matched region starts
at position 0, cannot contain a newline (neither `.` nor `\S` matches one),
and must end where `$` holds, so it is exactly `coreOf line`; the match
fails whenever the core still contains a newline. -/
def regexMatch (line : Str) : Option (Str × Str) :=
  if (coreOf line).contains '\n' then none else innerMatch (coreOf line)

example : regexMatch (cs "sym a.cpp\n") = some (cs "sym", cs "a.cpp") := by rfl
example : regexMatch (cs "sym xycpp\n") = some (cs "sym", cs "xycpp") := by rfl
example : regexMatch (cs "a b.cpp c.cpp\n") = some (cs "a b.cpp", cs "c.cpp") := by rfl
example : regexMatch (cs "garbage\n") = none := by rfl
example : regexMatch (cs "sym a.cc\n") = none := by rfl

/-- The reserved main-function marker of line 82. -/
def mainMarker : Str := cs "c:@F@main#I#"

/-- Python dict lookup in the AST path map (`paths[...]` / `in paths`),
modelled on an association list. -/
def findPath : List (Str × Str) → Str → Option Str
  | [], _ => none
  | (k, v) :: rest, q => if k = q then some v else findPath rest q

/-- The two fatal errors of `generate_external_def_map` (lines 81 and 84-87).
`notFound` carries the keys printed by the `for p in paths: print(p)` loop
that runs before the exception is raised. -/
inductive DefMapErr where
  | malformed : Str → DefMapErr
  | notFound : List Str → Str → Str → DefMapErr
deriving DecidableEq

/-- Lines 77-88: processing of one line of the intermediate def-map output.
Returns `.ok none` when the line is dropped by the main-symbol filter,
`.ok (some entry)` when an output line is written, and an error when the
loop raises. -/
def processLine (cwd : Str) (paths : List (Str × Str)) (line : Str) :
    Except DefMapErr (Option Str) :=
  let l := stripLine cwd line
  match regexMatch l with
  | none => .error (.malformed l)
  | some (g1, g2) =>
    if containsSub mainMarker g1 then .ok none
    else
      match findPath paths g2 with
      | none => .error (.notFound (paths.map Prod.fst) l g2)
      | some ast => .ok (some (g1 ++ ' ' :: (ast ++ ['\n'])))

/-- The whole rewrite loop of lines 77-88: entries written to the final map
before the loop finishes or raises, plus the error if one is raised. -/
def processLines (cwd : Str) (paths : List (Str × Str)) :
    List Str → List Str × Option DefMapErr
  | [] => ([], none)
  | l :: ls =>
    match processLine cwd paths l with
    | .error e => ([], some e)
    | .ok none => processLines cwd paths ls
    | .ok (some ent) =>
      let r := processLines cwd paths ls
      (ent :: r.1, r.2)

/-- Soundness of the matcher: a successful match decomposes the core at a
space whose suffix satisfies `checkTail`. -/
theorem innerMatch_sound :
    ∀ core g1 g2 : Str, innerMatch core = some (g1, g2) →
      core = g1 ++ ' ' :: g2 ∧ checkTail g2 = true := by
  intro core
  induction core with
  | nil => intro g1 g2 h; exact absurd h (by simp [innerMatch])
  | cons c rest ih =>
    intro g1 g2 h
    cases hrec : innerMatch rest with
    | some pr =>
      obtain ⟨h1, h2⟩ := pr
      simp only [innerMatch, hrec, Option.some.injEq, Prod.mk.injEq] at h
      obtain ⟨e1, e2⟩ := h
      subst e1
      subst e2
      obtain ⟨hsplit, hct⟩ := ih h1 h2 hrec
      exact ⟨by rw [hsplit]; rfl, hct⟩
    | none =>
      by_cases hg : (c = ' ' && checkTail rest) = true
      · simp only [innerMatch, hrec, if_pos hg, Option.some.injEq,
          Prod.mk.injEq] at h
        obtain ⟨e1, e2⟩ := h
        subst e1
        subst e2
        simp only [Bool.and_eq_true, decide_eq_true_eq] at hg
        obtain ⟨rfl, hct⟩ := hg
        exact ⟨rfl, hct⟩
      · simp only [innerMatch, hrec, if_neg hg] at h
        exact Option.noConfusion h

/-- Completeness of the matcher: if the core splits at some space whose
suffix satisfies `checkTail`, the match succeeds. -/
theorem innerMatch_complete :
    ∀ g1 g2 core : Str, core = g1 ++ ' ' :: g2 → checkTail g2 = true →
      innerMatch core ≠ none := by
  intro g1
  induction g1 with
  | nil =>
    intro g2 core hc hct
    subst hc
    simp only [List.nil_append, innerMatch]
    cases hrec : innerMatch g2 with
    | some pr => cases pr; simp
    | none => simp [hct]
  | cons c g1' ih =>
    intro g2 core hc hct
    subst hc
    show innerMatch (c :: (g1' ++ ' ' :: g2)) ≠ none
    simp only [innerMatch]
    cases hrec : innerMatch (g1' ++ ' ' :: g2) with
    | some pr => cases pr; simp
    | none => exact absurd hrec (ih g2 _ rfl hct)

/-- Declarative reading of a line core accepted by the pattern of line 79:
some space splits it into a symbol-id part and a remainder of the form
`S ++ [d] ++ "cpp"` with `S` nonempty and whitespace-free and `d` arbitrary
(the unescaped `.` of the pattern). -/
def wellFormedLine (core : Str) : Prop :=
  ∃ g1 S : Str, ∃ d : Char,
    core = g1 ++ ' ' :: (S ++ d :: cs "cpp") ∧ S ≠ [] ∧ ∀ c ∈ S, isPyWS c = false

/-- `checkTail` holds exactly on lists of the form `S ++ [d] ++ "cpp"` with
`S` nonempty and whitespace-free. -/
theorem checkTail_iff (B : Str) :
    checkTail B = true ↔
      ∃ S : Str, ∃ d : Char,
        B = S ++ d :: cs "cpp" ∧ S ≠ [] ∧ ∀ c ∈ S, isPyWS c = false := by
  constructor
  · intro h
    simp only [checkTail, Bool.and_eq_true, decide_eq_true_eq, List.all_eq_true,
      Bool.not_eq_true'] at h
    obtain ⟨⟨hlen, hdrop⟩, hall⟩ := h
    have h4 : B.length - 4 < B.length := by omega
    refine ⟨B.take (B.length - 4), B.get ⟨B.length - 4, h4⟩, ?_, ?_, ?_⟩
    · have hsplit : B = B.take (B.length - 4) ++ B.drop (B.length - 4) :=
        (List.take_append_drop _ B).symm
      have hdropcons : B.drop (B.length - 4)
          = B.get ⟨B.length - 4, h4⟩ :: B.drop (B.length - 4 + 1) := by
        rw [List.drop_eq_getElem_cons h4]
        rfl
      have harith : B.length - 4 + 1 = B.length - 3 := by omega
      rw [hdropcons, harith, hdrop] at hsplit
      exact hsplit
    · intro hnil
      have := congrArg List.length hnil
      simp only [List.length_take, List.length_nil] at this
      omega
    · intro c hc
      exact hall c hc
  · rintro ⟨S, d, rfl, hS, hall⟩
    have hlen : (S ++ d :: cs "cpp").length = S.length + 4 := by
      simp [List.length_append, cs]
    have hSpos : 1 ≤ S.length := by
      cases S with
      | nil => exact absurd rfl hS
      | cons _ _ => simp
    simp only [checkTail, Bool.and_eq_true, decide_eq_true_eq, List.all_eq_true,
      Bool.not_eq_true']
    refine ⟨⟨by omega, ?_⟩, ?_⟩
    · have harith : (S ++ d :: cs "cpp").length - 3 = S.length + 1 := by omega
      rw [harith]
      have : S.length + 1 = (S ++ [d]).length := by simp
      rw [this]
      have hassoc : S ++ d :: cs "cpp" = (S ++ [d]) ++ cs "cpp" := by simp
      rw [hassoc, List.drop_left]
    · intro c hc
      have harith : (S ++ d :: cs "cpp").length - 4 = S.length := by omega
      rw [harith, List.take_append_of_le_length (Nat.le_refl _),
        List.take_length] at hc
      exact hall c hc

/-- When the newline side conditions hold, the regex match is the inner
pattern match on the core. -/
theorem regexMatch_eq (line : Str)
    (hnl : (coreOf line).contains '\n' = false) :
    regexMatch line = innerMatch (coreOf line) := by
  unfold regexMatch
  rw [hnl]
  simp

/-- Equation: a line whose rewritten form fails the pattern raises the
malformed-line error of line 81. -/
theorem processLine_eq_malformed (cwd : Str) (paths : List (Str × Str))
    (line : Str) (h : regexMatch (stripLine cwd line) = none) :
    processLine cwd paths line
      = Except.error (DefMapErr.malformed (stripLine cwd line)) := by
  simp [processLine, h]

/-- Equation: a matching line whose symbol-id contains the main marker is
dropped (lines 82-83). -/
theorem processLine_eq_marker (cwd : Str) (paths : List (Str × Str))
    (line g1 g2 : Str)
    (h : regexMatch (stripLine cwd line) = some (g1, g2))
    (hm : containsSub mainMarker g1 = true) :
    processLine cwd paths line = Except.ok none := by
  simp [processLine, h, hm]

/-- Equation: a matching, non-main line whose filename resolves produces the
single rewritten entry of line 88. -/
theorem processLine_eq_entry (cwd : Str) (paths : List (Str × Str))
    (line g1 g2 ast : Str)
    (h : regexMatch (stripLine cwd line) = some (g1, g2))
    (hm : containsSub mainMarker g1 = false)
    (hp : findPath paths g2 = some ast) :
    processLine cwd paths line
      = Except.ok (some (g1 ++ ' ' :: (ast ++ ['\n']))) := by
  simp [processLine, h, hm, hp]

/-- Equation: a matching, non-main line whose filename is absent from the
AST path map raises the not-found error after printing all keys
(lines 84-87). -/
theorem processLine_eq_notFound (cwd : Str) (paths : List (Str × Str))
    (line g1 g2 : Str)
    (h : regexMatch (stripLine cwd line) = some (g1, g2))
    (hm : containsSub mainMarker g1 = false)
    (hp : findPath paths g2 = none) :
    processLine cwd paths line
      = Except.error
          (DefMapErr.notFound (paths.map Prod.fst) (stripLine cwd line) g2) := by
  simp [processLine, h, hm, hp]

/-- C3 counterexample input: the line `sym xycpp` has a final token that does
not end in `.cpp`, yet it is not rejected — the unescaped `.` of the pattern
`(\S+.cpp)$` matches the `y` — and an entry is emitted for it. -/
theorem c3_malformed_line_counterexample :
    List.isSuffixOf (cs ".cpp") (cs "xycpp") = false
    ∧ processLine (cs "/root") [(cs "xycpp", cs "xycpp.ast")] (cs "sym xycpp\n")
        = Except.ok (some (cs "sym xycpp.ast\n")) := by
  exact ⟨by decide, by rfl⟩

/-- C3 (amended): a rewritten line is rejected as malformed iff — ignoring
one trailing newline and given the core contains no interior newline — it
admits no decomposition `<anything> <S ++ d ++ "cpp">` with `S` nonempty and
whitespace-free and `d` an arbitrary character.  The regex's unescaped `.`
means the final token need only end in some character followed by `cpp`,
not in the literal suffix `.cpp`. -/
theorem c3_malformed_line_amended (cwd : Str) (paths : List (Str × Str))
    (line : Str)
    (hnl : (coreOf (stripLine cwd line)).contains '\n' = false) :
    processLine cwd paths line
        = Except.error (DefMapErr.malformed (stripLine cwd line))
      ↔ ¬ wellFormedLine (coreOf (stripLine cwd line)) := by
  have hre : regexMatch (stripLine cwd line)
      = innerMatch (coreOf (stripLine cwd line)) := regexMatch_eq _ hnl
  constructor
  · intro heq
    rintro ⟨g1, S, d, hsplit, hS, hall⟩
    have hct : checkTail (S ++ d :: cs "cpp") = true :=
      (checkTail_iff _).mpr ⟨S, d, rfl, hS, hall⟩
    have hne : innerMatch (coreOf (stripLine cwd line)) ≠ none :=
      innerMatch_complete g1 _ _ hsplit hct
    cases hi : innerMatch (coreOf (stripLine cwd line)) with
    | none => exact hne hi
    | some pr =>
      obtain ⟨h1, h2⟩ := pr
      have hm : regexMatch (stripLine cwd line) = some (h1, h2) := by
        rw [hre, hi]
      by_cases hmk : containsSub mainMarker h1 = true
      · rw [processLine_eq_marker cwd paths line h1 h2 hm hmk] at heq
        exact Except.noConfusion heq
      · have hmk' : containsSub mainMarker h1 = false :=
          Bool.eq_false_iff.mpr hmk
        cases hp : findPath paths h2 with
        | none =>
          rw [processLine_eq_notFound cwd paths line h1 h2 hm hmk' hp] at heq
          have := Except.error.inj heq
          exact DefMapErr.noConfusion this
        | some ast =>
          rw [processLine_eq_entry cwd paths line h1 h2 ast hm hmk' hp] at heq
          exact Except.noConfusion heq
  · intro hwf
    cases hi : innerMatch (coreOf (stripLine cwd line)) with
    | none =>
      apply processLine_eq_malformed
      rw [hre, hi]
    | some pr =>
      obtain ⟨h1, h2⟩ := pr
      obtain ⟨hsplit, hct⟩ := innerMatch_sound _ h1 h2 hi
      obtain ⟨S, d, hB, hS, hall⟩ := (checkTail_iff h2).mp hct
      exact absurd ⟨h1, S, d, by rw [hsplit, hB], hS, hall⟩ hwf

/-- Witness for the amended C3 theorem: the line `garbage` (no space at all)
is rejected, hence not well formed. -/
theorem c3_malformed_line_amended_witness :
    ¬ wellFormedLine (coreOf (stripLine (cs "/root") (cs "garbage\n"))) :=
  (c3_malformed_line_amended (cs "/root") [] (cs "garbage\n")
    (by decide)).mp (by rfl)

/-- C5 counterexample input: the line references `missing.cpp`, which is
absent from the AST path map, yet because its symbol-id contains the main
marker the line is skipped by the `continue` of line 83 before the lookup of
line 84 runs — the build does not fail (and emits nothing). -/
theorem c5_not_found_counterexample :
    findPath [(cs "a.cc", cs "a.cc.ast")] (cs "missing.cpp") = none
    ∧ regexMatch (stripLine (cs "/r") (cs "c:@F@main#I#q missing.cpp\n"))
        = some (cs "c:@F@main#I#q", cs "missing.cpp")
    ∧ processLines (cs "/r") [(cs "a.cc", cs "a.cc.ast")]
        [cs "c:@F@main#I#q missing.cpp\n"] = ([], none) := by
  exact ⟨rfl, rfl, rfl⟩

/-- C5 (amended): for every well-formed def-map line that is **not** dropped
by the main-symbol filter and whose matched filename is absent from the AST
path map, the build fails with a not-found error carrying every key of the
map (the keys printed before the raise), and no final-map entry is emitted
for it or for any later line. -/
theorem c5_not_found_amended (cwd : Str) (paths : List (Str × Str))
    (line g1 g2 : Str)
    (hm : regexMatch (stripLine cwd line) = some (g1, g2))
    (hmk : containsSub mainMarker g1 = false)
    (hnf : findPath paths g2 = none) :
    processLine cwd paths line
        = Except.error
            (DefMapErr.notFound (paths.map Prod.fst) (stripLine cwd line) g2)
    ∧ ∀ rest : List Str,
        processLines cwd paths (line :: rest)
          = ([], some
              (DefMapErr.notFound (paths.map Prod.fst) (stripLine cwd line) g2)) := by
  have h1 := processLine_eq_notFound cwd paths line g1 g2 hm hmk hnf
  refine ⟨h1, fun rest => ?_⟩
  simp [processLines, h1]

/-- Witness for the amended C5 theorem at a concrete input. -/
theorem c5_not_found_amended_witness :
    processLine (cs "/r") [(cs "a.cc", cs "a.cc.ast")] (cs "sym missing.cpp\n")
        = Except.error
            (DefMapErr.notFound ([(cs "a.cc", cs "a.cc.ast")].map Prod.fst)
              (stripLine (cs "/r") (cs "sym missing.cpp\n")) (cs "missing.cpp"))
    ∧ processLines (cs "/r") [(cs "a.cc", cs "a.cc.ast")]
          [cs "sym missing.cpp\n"]
        = ([], some
            (DefMapErr.notFound ([(cs "a.cc", cs "a.cc.ast")].map Prod.fst)
              (stripLine (cs "/r") (cs "sym missing.cpp\n")) (cs "missing.cpp"))) :=
  ⟨(c5_not_found_amended (cs "/r") [(cs "a.cc", cs "a.cc.ast")]
      (cs "sym missing.cpp\n") (cs "sym") (cs "missing.cpp")
      (by rfl) (by decide) (by rfl)).1,
   (c5_not_found_amended (cs "/r") [(cs "a.cc", cs "a.cc.ast")]
      (cs "sym missing.cpp\n") (cs "sym") (cs "missing.cpp")
      (by rfl) (by decide) (by rfl)).2 []⟩

/-- C6: the main-symbol filter drops all and only the matching lines whose
symbol-id (first capture group) contains the marker `c:@F@main#I#` — such a
line produces no output entry — while every matching, resolvable line whose
symbol-id does not contain the marker produces exactly the single entry
`<symbol-id> <mapped AST path>` (line 88). -/
theorem c6_main_symbol_filter (cwd : Str) (paths : List (Str × Str))
    (line g1 g2 : Str)
    (hm : regexMatch (stripLine cwd line) = some (g1, g2)) :
    (containsSub mainMarker g1 = true →
      processLine cwd paths line = Except.ok none)
    ∧ (containsSub mainMarker g1 = false → ∀ ast : Str,
        findPath paths g2 = some ast →
          processLine cwd paths line
            = Except.ok (some (g1 ++ ' ' :: (ast ++ ['\n'])))) :=
  ⟨fun hmk => processLine_eq_marker cwd paths line g1 g2 hm hmk,
   fun hmk ast hp => processLine_eq_entry cwd paths line g1 g2 ast hm hmk hp⟩

/-- Witness for C6: a marker line is dropped, a non-marker line yields its
single rewritten entry. -/
theorem c6_main_symbol_filter_witness :
    processLine (cs "/r") [(cs "a.cpp", cs "a.cpp.ast")]
        (cs "c:@F@main#I#z a.cpp\n") = Except.ok none
    ∧ processLine (cs "/r") [(cs "a.cpp", cs "a.cpp.ast")] (cs "sym a.cpp\n")
        = Except.ok (some (cs "sym" ++ ' ' :: (cs "a.cpp.ast" ++ ['\n']))) :=
  ⟨(c6_main_symbol_filter (cs "/r") [(cs "a.cpp", cs "a.cpp.ast")]
      (cs "c:@F@main#I#z a.cpp\n") (cs "c:@F@main#I#z") (cs "a.cpp")
      (by rfl)).1 (by decide),
   (c6_main_symbol_filter (cs "/r") [(cs "a.cpp", cs "a.cpp.ast")]
      (cs "sym a.cpp\n") (cs "sym") (cs "a.cpp")
      (by rfl)).2 (by decide) (cs "a.cpp.ast") (by rfl)⟩

/-- Lines 153-155: the failure heuristic — stderr contains one of the
case-sensitive substrings `error`, `warning`, `critical`. -/
def failNeeded (st : Str) : Bool :=
  containsSub (cs "error") st || containsSub (cs "warning") st
    || containsSub (cs "critical") st

/-- Lines 132-156: the sequential analysis loop over `args.files`, given the
stderr `sf f` each analyzer run produces.  Returns the list of files the
analyzer is invoked on (every iteration reaches the `call` of line 151) and
the accumulated `fixNeeded` report buffer. -/
def analysisLoop (sf : Str → Str) : List Str → List Str × Str
  | [] => ([], [])
  | f :: fs =>
    let st := sf f
    let r := analysisLoop sf fs
    (f :: r.1, if failNeeded st then st ++ r.2 else r.2)

/-- The files the analysis phase invokes the analyzer on. -/
def analyzerInvocations (sf : Str → Str) (files : List Str) : List Str :=
  (analysisLoop sf files).1

/-- The `fixNeeded` report buffer after the analysis loop. -/
def analysisBuffer (sf : Str → Str) (files : List Str) : Str :=
  (analysisLoop sf files).2

/-- Lines 158-163: the value `main` returns. -/
def mainReturn (buf : Str) : Int := if buf = [] then 0 else -1

/-- Lines 158-162: whether `results.txt` is opened and written at all. -/
def resultsFileWritten (buf : Str) : Bool := if buf = [] then false else true

/-- Lines 161-162: content of the append-mode `results.txt` after `main`,
given its previous content `old`. -/
def resultsArtifact (old buf : Str) : Str := if buf = [] then old else old ++ buf

/-- Line 126: the build-metadata marker. -/
def buildInfoMarker : Str := cs "build_info"

/-- Lines 125-128: the files for which an AST-generation task is submitted
to the pool — every file of `args.files` except those containing
`build_info`. -/
def astScheduled (files : List Str) : List Str :=
  files.filter (fun f => !containsSub buildInfoMarker f)

/-- The analysis loop visits every file and accumulates exactly the stderr
of the failing runs, in file order. -/
theorem analysisLoop_eq (sf : Str → Str) :
    ∀ files : List Str,
      (analysisLoop sf files).1 = files
      ∧ (analysisLoop sf files).2
          = ((files.filter (fun f => failNeeded (sf f))).map sf).flatten := by
  intro files
  induction files with
  | nil => exact ⟨rfl, rfl⟩
  | cons f fs ih =>
    constructor
    · show f :: (analysisLoop sf fs).1 = f :: fs
      rw [ih.1]
    · show (if failNeeded (sf f) then sf f ++ (analysisLoop sf fs).2
          else (analysisLoop sf fs).2) = _
      rw [List.filter_cons]
      by_cases hf : failNeeded (sf f) = true
      · rw [if_pos hf, if_pos hf, List.map_cons, List.flatten_cons, ih.2]
      · rw [if_neg hf, if_neg hf, ih.2]

/-- C4: a run contributes its full stderr to the report buffer iff the
stderr matches the failure heuristic (the buffer is the concatenation, in
file order, of exactly the matching stderr texts); `main` returns 0 iff the
buffer is empty, in which case no results file is written, and otherwise the
buffer is appended to the results artifact and `main` returns -1. -/
theorem c4_failure_classification (sf : Str → Str) (files : List Str)
    (old : Str) :
    analysisBuffer sf files
        = ((files.filter (fun f => failNeeded (sf f))).map sf).flatten
    ∧ (mainReturn (analysisBuffer sf files) = 0 ↔ analysisBuffer sf files = [])
    ∧ (mainReturn (analysisBuffer sf files) = -1 ↔ analysisBuffer sf files ≠ [])
    ∧ (resultsFileWritten (analysisBuffer sf files) = false
        ↔ analysisBuffer sf files = [])
    ∧ resultsArtifact old (analysisBuffer sf files)
        = (if analysisBuffer sf files = [] then old
           else old ++ analysisBuffer sf files) := by
  refine ⟨(analysisLoop_eq sf files).2, ?_, ?_, ?_, rfl⟩
  · unfold mainReturn
    by_cases hb : analysisBuffer sf files = [] <;> simp [hb]
  · unfold mainReturn
    by_cases hb : analysisBuffer sf files = [] <;> simp [hb]
  · unfold resultsFileWritten
    by_cases hb : analysisBuffer sf files = [] <;> simp [hb]

/-- A concrete stderr oracle: only `b.cc` produces diagnostics. -/
def sfWarn : Str → Str :=
  fun f => if f = cs "b.cc" then cs "warning: unused variable" else []

/-- Witness for C4: with two files of which one produces a matching stderr,
the buffer is exactly that stderr and `main` returns -1. -/
theorem c4_failure_classification_witness :
    mainReturn (analysisBuffer sfWarn [cs "a.cc", cs "b.cc"]) = -1
    ∧ analysisBuffer sfWarn [cs "a.cc", cs "b.cc"]
        = cs "warning: unused variable" :=
  ⟨(c4_failure_classification sfWarn [cs "a.cc", cs "b.cc"] []).2.2.1.mpr
      (by decide),
   by rfl⟩

/-- A concrete stderr oracle that always reports an error. -/
def sfBoom : Str → Str := fun _ => cs "error: boom"

/-- C2 counterexample input: a file whose path contains `build_info` is
still iterated by the analysis loop of lines 133-156 (the analyzer is
invoked on it) and its matching stderr lands in the report buffer — the
`build_info` skip exists only in the AST-generation loop. -/
theorem c2_build_info_counterexample :
    containsSub buildInfoMarker (cs "build_info.cc") = true
    ∧ analyzerInvocations sfBoom [cs "build_info.cc"] = [cs "build_info.cc"]
    ∧ analysisBuffer sfBoom [cs "build_info.cc"] = cs "error: boom" := by
  exact ⟨by decide, rfl, rfl⟩

/-- C2 (amended): the `build_info` skip applies to the AST-generation phase
(no compile task is scheduled for such files), not to the analysis phase:
the analyzer is invoked on every file of the list, and any file — including
a `build_info` one — whose stderr matches the heuristic contributes to the
report buffer, making it nonempty. -/
theorem c2_build_info_amended (files : List Str) (f : Str) (sf : Str → Str)
    (hf : f ∈ files) (hfail : failNeeded (sf f) = true) :
    astScheduled files = files.filter (fun g => !containsSub buildInfoMarker g)
    ∧ analyzerInvocations sf files = files
    ∧ analysisBuffer sf files ≠ [] := by
  refine ⟨rfl, (analysisLoop_eq sf files).1, ?_⟩
  intro hnil
  unfold analysisBuffer at hnil
  rw [(analysisLoop_eq sf files).2] at hnil
  have hmem : sf f ∈ (files.filter (fun g => failNeeded (sf g))).map sf :=
    List.mem_map_of_mem sf (List.mem_filter.mpr ⟨hf, hfail⟩)
  have hsf : sf f = [] := List.flatten_eq_nil_iff.mp hnil (sf f) hmem
  rw [hsf] at hfail
  exact absurd hfail (by decide)

/-- Witness for the amended C2 theorem: the single `build_info` file's
erroring stderr makes the buffer nonempty. -/
theorem c2_build_info_amended_witness :
    analyzerInvocations sfBoom [cs "build_info.cc"] = [cs "build_info.cc"]
    ∧ analysisBuffer sfBoom [cs "build_info.cc"] ≠ [] :=
  ⟨(c2_build_info_amended [cs "build_info.cc"] (cs "build_info.cc") sfBoom
      (by decide) (by decide)).2.1,
   (c2_build_info_amended [cs "build_info.cc"] (cs "build_info.cc") sfBoom
      (by decide) (by decide)).2.2⟩

/-- Lines 21-28: one parsed entry of `compile_commands.json`. -/
structure CompileCommand where
  cmdline : List Str
  directory : Str
  path : Str
deriving DecidableEq

/-- `os.path.join(a, b)` for POSIX paths, as used on lines 61 and 108. -/
def pathJoin (a b : Str) : Str :=
  if b.head? = some '/' then b
  else if a = [] ∨ a.getLast? = some '/' then a ++ b
  else a ++ '/' :: b

/-- Lines 92-95 (and 59-62): resolve a tool binary, optionally under
`--llvm-bin-dir`. -/
def llvmBinaryPath (llvmBinDir : Option Str) (filename : Str) : Str :=
  match llvmBinDir with
  | some d => pathJoin d filename
  | none => filename

/-- Line 108: the fixed flags of the AST-emission invocation. -/
def astFixedFlags (cwd astPath : Str) : List Str :=
  [cs "-emit-ast", cs "-o", pathJoin cwd astPath]

/-- Lines 105-110: the argument list `compile_file` builds — filter out every
`-c` token, then drop the first remaining token and prepend the tool binary
and the AST-emission flags. -/
def astCmdline (llvmBinDir : Option Str) (cwd astPath : Str)
    (cmd : CompileCommand) : List Str :=
  let cmdline := cmd.cmdline.filter (fun x => !(x == cs "-c"))
  llvmBinaryPath llvmBinDir (cs "clang++")
    :: (astFixedFlags cwd astPath ++ cmdline.drop 1)

/-- Lines 137-150: the fixed flags of the analysis invocation. -/
def analyzeFixedFlags (sourceDir : Str) : List Str :=
  [cs "--analyze", cs "-Xclang", cs "-analyzer-config", cs "-Xclang",
   cs "experimental-enable-naive-ctu-analysis=true", cs "-Xclang",
   cs "-analyzer-config", cs "-Xclang", cs "ctu-dir=" ++ sourceDir,
   cs "-Xclang", cs "-analyzer-output=plist-multi-file"]

/-- Lines 136-150: the argument list of the analysis invocation — same
filter-then-drop rewriting with the analysis flag set. -/
def analyzeCmdline (llvmBinDir : Option Str) (sourceDir : Str)
    (cmd : CompileCommand) : List Str :=
  let cmdline := cmd.cmdline.filter (fun x => !(x == cs "-c"))
  llvmBinaryPath llvmBinDir (cs "clang++")
    :: (analyzeFixedFlags sourceDir ++ cmdline.drop 1)

/-- Modelled from the spec claim's wording: the original argument list with
its first token and every occurrence of the exact token `-c` removed. -/
def specRewritten (l : List Str) : List Str :=
  (l.drop 1).filter (fun x => !(x == cs "-c"))

/-- C8 counterexample input: a stored command whose first token is `-c`
itself.  The code filters the `-c` tokens first and then drops the first
*remaining* token (`x`), so the rewritten tail is empty, while the claim's
description (drop the first token and every `-c` of the original list)
keeps `x`. -/
theorem c8_rewrite_counterexample :
    astCmdline none (cs "/w") (cs "a.cc.ast")
        ⟨[cs "-c", cs "x"], cs "/w", cs "a.cc"⟩
      ≠ llvmBinaryPath none (cs "clang++")
          :: (astFixedFlags (cs "/w") (cs "a.cc.ast")
              ++ specRewritten [cs "-c", cs "x"]) := by
  decide

/-- C8 (amended): for every stored CompileCommand, the rewritten argument
list for either purpose is the tool binary, the purpose's fixed flags, and
the original argument list with every `-c` token removed and then its first
remaining token dropped; when the first token of the stored list is not
`-c` this coincides with dropping the first token and every `-c`.  The
stored command itself is never modified (the rewriting is pure by
construction in this model, as in the source, which builds a fresh list). -/
theorem c8_rewrite_amended (llvmBinDir : Option Str)
    (cwd astPath sourceDir : Str) (cmd : CompileCommand)
    (h : cmd.cmdline.head? ≠ some (cs "-c")) :
    astCmdline llvmBinDir cwd astPath cmd
        = llvmBinaryPath llvmBinDir (cs "clang++")
            :: (astFixedFlags cwd astPath
                ++ (cmd.cmdline.filter (fun x => !(x == cs "-c"))).drop 1)
    ∧ analyzeCmdline llvmBinDir sourceDir cmd
        = llvmBinaryPath llvmBinDir (cs "clang++")
            :: (analyzeFixedFlags sourceDir
                ++ (cmd.cmdline.filter (fun x => !(x == cs "-c"))).drop 1)
    ∧ (cmd.cmdline.filter (fun x => !(x == cs "-c"))).drop 1
        = specRewritten cmd.cmdline := by
  refine ⟨rfl, rfl, ?_⟩
  unfold specRewritten
  cases hcl : cmd.cmdline with
  | nil => rfl
  | cons c t =>
    have hc : (c == cs "-c") = false := by
      rw [hcl] at h
      rw [beq_eq_false_iff_ne]
      intro he
      exact h (by rw [List.head?, he])
    rw [List.filter_cons, hc]
    simp only [Bool.not_false, if_true, List.drop_succ_cons, List.drop_zero]

/-- Witness for the amended C8 theorem at a concrete stored command. -/
theorem c8_rewrite_amended_witness :
    astCmdline none (cs "/w") (cs "a.cc.ast")
        ⟨[cs "g++", cs "-c", cs "a.cc"], cs "/w", cs "a.cc"⟩
      = llvmBinaryPath none (cs "clang++")
          :: (astFixedFlags (cs "/w") (cs "a.cc.ast")
              ++ (([cs "g++", cs "-c", cs "a.cc"].filter
                    (fun x => !(x == cs "-c"))).drop 1))
    ∧ analyzeCmdline none (cs "/s")
        ⟨[cs "g++", cs "-c", cs "a.cc"], cs "/w", cs "a.cc"⟩
      = llvmBinaryPath none (cs "clang++")
          :: (analyzeFixedFlags (cs "/s")
              ++ (([cs "g++", cs "-c", cs "a.cc"].filter
                    (fun x => !(x == cs "-c"))).drop 1))
    ∧ (([cs "g++", cs "-c", cs "a.cc"].filter
          (fun x => !(x == cs "-c"))).drop 1)
        = specRewritten [cs "g++", cs "-c", cs "a.cc"] :=
  c8_rewrite_amended none (cs "/w") (cs "a.cc.ast") (cs "/s")
    ⟨[cs "g++", cs "-c", cs "a.cc"], cs "/w", cs "a.cc"⟩ (by decide)

/-- Lines 195-196: `r = main()` followed by the unconditional `sys.exit(1)`
— the process exit status as a function of whatever `main` returned. -/
def programExitCode (_mainResult : Int) : Int := 1

/-- C1: whatever `main` returns — 0 on success, -1 on failure, or anything
else — the process terminates with exit code 1. -/
theorem c1_exit_code_always_one (r : Int) :
    programExitCode r = 1 ∧ programExitCode 0 = 1 ∧ programExitCode (-1) = 1 :=
  ⟨rfl, rfl, rfl⟩

/-- Events of the main thread of `main` (lines 122-156), in program order:
submitting the def-map task (line 124), submitting an AST-compile task
(line 128), awaiting the i-th submitted future (`r.result()`, line 130),
and invoking the analyzer on a file (line 151). -/
inductive PEvent where
  | submitDefMap : PEvent
  | submitCompile : Str → PEvent
  | awaitTask : Nat → PEvent
  | invokeAnalyzer : Str → PEvent
deriving DecidableEq

/-- Whether an event is an analyzer invocation. -/
def isInvokeEv : PEvent → Bool
  | .invokeAnalyzer _ => true
  | _ => false

/-- Lines 129-130: `for r in results: r.result()` — await the futures in
submission order, given each task's outcome (`none` = completed normally,
`some e` = raised `e`); the loop re-raises at the first failed future.
Returns the await events performed and the propagated error, if any.
`Future.result()` blocks until its task has completed, so every await event
marks a completed phase-one task. -/
def awaitLoop {E : Type} : List (Option E) → Nat → List PEvent × Option E
  | [], _ => ([], none)
  | none :: rest, i =>
    let r := awaitLoop rest (i + 1)
    (PEvent.awaitTask i :: r.1, r.2)
  | some e :: _, i => ([PEvent.awaitTask i], some e)

/-- The first error in the phase-one task outcomes, if any. -/
def firstErr {E : Type} : List (Option E) → Option E
  | [] => none
  | none :: rest => firstErr rest
  | some e :: _ => some e

/-- Lines 122-156: the main-thread event trace of `main` after the file list
is fixed — submit the def-map build and one compile task per non-`build_info`
file, await every future in order (re-raising on failure, which skips the
rest of `main`), then run the sequential analysis loop.  `rs` lists the
phase-one task outcomes in submission order. -/
def mainTrace {E : Type} (files : List Str) (rs : List (Option E)) :
    List PEvent × Option E :=
  let subs := PEvent.submitDefMap
    :: (astScheduled files).map PEvent.submitCompile
  let ar := awaitLoop rs 0
  match ar.2 with
  | some e => (subs ++ ar.1, some e)
  | none => (subs ++ ar.1 ++ files.map PEvent.invokeAnalyzer, none)

/-- The await loop propagates exactly the first error. -/
theorem awaitLoop_snd {E : Type} :
    ∀ (rs : List (Option E)) (i : Nat), (awaitLoop rs i).2 = firstErr rs := by
  intro rs
  induction rs with
  | nil => intro i; rfl
  | cons x rest ih =>
    intro i
    cases x with
    | none => exact ih (i + 1)
    | some e => rfl

/-- Every event of the await loop is an await. -/
theorem awaitLoop_events {E : Type} :
    ∀ (rs : List (Option E)) (i : Nat) (ev : PEvent),
      ev ∈ (awaitLoop rs i).1 → ∃ j : Nat, ev = PEvent.awaitTask j := by
  intro rs
  induction rs with
  | nil => intro i ev h; exact absurd h (by simp [awaitLoop])
  | cons x rest ih =>
    intro i ev h
    cases x with
    | none =>
      rcases List.mem_cons.mp h with he | ht
      · exact ⟨i, he⟩
      · exact ih (i + 1) ev ht
    | some e =>
      rcases List.mem_cons.mp h with he | ht
      · exact ⟨i, he⟩
      · exact absurd ht (by simp)

/-- When no task fails, the await loop performs one await per task. -/
theorem awaitLoop_all_none {E : Type} :
    ∀ (rs : List (Option E)) (i : Nat), (∀ x ∈ rs, x = none) →
      (awaitLoop rs i).1 = (List.range' i rs.length).map PEvent.awaitTask := by
  intro rs
  induction rs with
  | nil => intro i _; rfl
  | cons x rest ih =>
    intro i hall
    have hx : x = none := hall x (List.mem_cons_self x rest)
    subst hx
    show PEvent.awaitTask i :: (awaitLoop rest (i + 1)).1 = _
    rw [ih (i + 1) (fun y hy => hall y (List.mem_cons_of_mem _ hy))]
    rw [List.length_cons, List.range'_succ, List.map_cons]

/-- No error among the outcomes means `firstErr` is `none`. -/
theorem firstErr_eq_none_iff {E : Type} :
    ∀ rs : List (Option E), firstErr rs = none ↔ ∀ x ∈ rs, x = none := by
  intro rs
  induction rs with
  | nil => simp [firstErr]
  | cons x rest ih =>
    cases x with
    | none => simp [firstErr, ih]
    | some e => simp [firstErr]

/-- The error component of the main-thread trace is the first task error. -/
theorem mainTrace_snd {E : Type} (files : List Str) (rs : List (Option E)) :
    (mainTrace files rs).2 = firstErr rs := by
  have hsnd := awaitLoop_snd rs 0
  unfold mainTrace
  cases he : (awaitLoop rs 0).2 with
  | none =>
    rw [he] at hsnd
    simp only [he]
    exact hsnd
  | some e =>
    rw [he] at hsnd
    simp only [he]
    exact hsnd

/-- The event component of the main-thread trace: submissions, then the
awaits, then — only when no task failed — the analyzer invocations. -/
theorem mainTrace_fst {E : Type} (files : List Str) (rs : List (Option E)) :
    (mainTrace files rs).1
      = (PEvent.submitDefMap :: (astScheduled files).map PEvent.submitCompile)
        ++ ((awaitLoop rs 0).1
            ++ (if (firstErr rs).isNone
                then files.map PEvent.invokeAnalyzer else [])) := by
  have hsnd := awaitLoop_snd rs 0
  unfold mainTrace
  cases he : (awaitLoop rs 0).2 with
  | none =>
    rw [he] at hsnd
    rw [← hsnd]
    simp [he, List.append_assoc]
  | some e =>
    rw [he] at hsnd
    rw [← hsnd]
    simp [he]

/-- C9: the futures barrier of lines 129-130 — the propagated error is the
first phase-one failure; the trace is the submissions, then the awaits, then
(only if every task completed without error) the analyzer invocations, so no
analyzer invocation precedes any await; when no task fails there is one
await per task; and when some task fails, no analyzer invocation appears in
the trace at all — the failure propagates to the caller before the analysis
phase begins. -/
theorem c9_phase_barrier (E : Type) (files : List Str)
    (rs : List (Option E)) :
    (mainTrace files rs).2 = firstErr rs
    ∧ (mainTrace files rs).1
        = (PEvent.submitDefMap
            :: (astScheduled files).map PEvent.submitCompile)
          ++ ((awaitLoop rs 0).1
              ++ (if (firstErr rs).isNone
                  then files.map PEvent.invokeAnalyzer else []))
    ∧ (∀ ev ∈ (awaitLoop rs 0).1, isInvokeEv ev = false)
    ∧ (firstErr rs = none →
        (awaitLoop rs 0).1 = (List.range' 0 rs.length).map PEvent.awaitTask)
    ∧ (firstErr rs ≠ none →
        ∀ ev ∈ (mainTrace files rs).1, isInvokeEv ev = false) := by
  refine ⟨mainTrace_snd files rs, mainTrace_fst files rs, ?_, ?_, ?_⟩
  · intro ev hev
    obtain ⟨j, rfl⟩ := awaitLoop_events rs 0 ev hev
    rfl
  · intro hnone
    exact awaitLoop_all_none rs 0 ((firstErr_eq_none_iff rs).mp hnone)
  · intro hsome ev hev
    rw [mainTrace_fst files rs] at hev
    have hfalse : (firstErr rs).isNone = false := by
      cases hfe : firstErr rs with
      | none => exact absurd hfe hsome
      | some e => rfl
    rw [hfalse] at hev
    simp only [if_neg Bool.false_ne_true, List.append_nil, List.mem_append,
      List.mem_cons, List.mem_map] at hev
    rcases hev with (rfl | ⟨f, _, rfl⟩) | hawait
    · rfl
    · rfl
    · obtain ⟨j, rfl⟩ := awaitLoop_events rs 0 ev hawait
      rfl

/-- Witness for C9: with one compile file and two clean outcomes the trace
is submit, submit, await 0, await 1, invoke; with a failing first task the
trace has no invocation and the error is propagated. -/
theorem c9_phase_barrier_witness :
    (mainTrace [cs "a.cc"] ([none, none] : List (Option Unit))).1
        = [PEvent.submitDefMap, PEvent.submitCompile (cs "a.cc"),
           PEvent.awaitTask 0, PEvent.awaitTask 1,
           PEvent.invokeAnalyzer (cs "a.cc")]
    ∧ (∀ ev ∈ (mainTrace [cs "a.cc"]
          ([some (), none] : List (Option Unit))).1, isInvokeEv ev = false)
    ∧ (mainTrace [cs "a.cc"] ([some (), none] : List (Option Unit))).2
        = some () := by
  refine ⟨?_, ?_, ?_⟩
  · rw [(c9_phase_barrier Unit [cs "a.cc"] [none, none]).2.1]
    rfl
  · exact (c9_phase_barrier Unit [cs "a.cc"] [some (), none]).2.2.2.2
      (by decide)
  · exact ((c9_phase_barrier Unit [cs "a.cc"] [some (), none]).1).trans rfl
